import Mathlib

/-!
Verification of the opencode repository's specification against its code.

The repository's checked-in Go sources (under `internal/swarm/...`) provide the
democratic voting system and the hierarchical memory store; those are embedded
shallowly below (floating-point numbers are modelled as exact rationals `ℚ`,
Go `int` as `ℤ`, Go maps as association lists with replace-on-insert).

The agent inference core described by the specification (agent loop, provider
retry policy, permission gate, store counters, tool output truncation) is not
part of the checked-in sources; for those claims the relevant operations are
modelled from the specification text, as marked on each definition.
-/

namespace OpenCode

/-! ## Tool output truncation (spec §4.3) -/

/-- Modelled from the spec: the per-tool output cap ("default 32 KiB"), §4.3.
The tool implementations are absent from the sources. -/
def defaultOutputCap : Nat := 32 * 1024

/-- Modelled from the spec: the truncation marker appended when a tool's
output is cut at the cap, §4.3.  Text is modelled as a list of characters. -/
def truncationMarker : List Char := "... [output truncated]".data

/-- Modelled from the spec: "each tool truncates its output to a configured
cap (default 32 KiB) and appends a truncation marker", §4.3. -/
def truncateOutput (cap : Nat) (s : List Char) : List Char :=
  if s.length ≤ cap then s else s.take cap ++ truncationMarker

/-! ## Permission gate (spec §4.4) -/

/-- Modelled from the spec: a permission-request record (§3), created when a
tool asks to act and resolved by the UI.  The permission gate is absent from
the sources. -/
structure PermRequest where
  toolName : String
  action : String
  path : String
deriving DecidableEq

/-- Modelled from the spec: the decision a caller of the gate receives. -/
inductive Decision
  | allow
  | deny
deriving DecidableEq

/-- Modelled from the spec: the resolution the UI eventually publishes for a
pending permission request (§4.4 step 3). -/
inductive UIDecision
  | allowOnce
  | allowSession
  | deny
deriving DecidableEq

/-- Modelled from the spec: the permission gate `request` operation, §4.4.
Input: the session's auto-approval set (a set of `(tool, path)` pairs), the
requesting tool and path, and the UI's eventual resolution for the suspended
path.  Output: the decision, the permission-request record created (if any),
the permission-request events published on the bus, and the updated
auto-approval set. -/
def permissionRequest (approvals : List (String × String))
    (toolName action path : String) (ui : UIDecision) :
    Decision × Option PermRequest × List PermRequest × List (String × String) :=
  if (toolName, path) ∈ approvals then
    (Decision.allow, none, [], approvals)
  else
    let req : PermRequest := ⟨toolName, action, path⟩
    match ui with
    | .allowOnce => (Decision.allow, some req, [req], approvals)
    | .allowSession => (Decision.allow, some req, [req], (toolName, path) :: approvals)
    | .deny => (Decision.deny, some req, [req], approvals)

/-! ## Provider retry policy (spec §4.2) -/

/-- Modelled from the spec: the provider error taxonomy relevant to the retry
policy, §4.2.  The provider adapters are absent from the sources. -/
inductive ProvError
  | httpStatus (code : Nat)
  | connectionReset
  | contextOverflow
  | malformedRequest
deriving DecidableEq

/-- Modelled from the spec: which provider errors are retried — "transport
errors and vendor-indicated transient failures (HTTP 408/429/5xx, connection
reset)"; authentication (401/403), model-not-found (404), context-overflow and
malformed-request errors are non-retryable (§4.2). -/
def retryable : ProvError → Bool
  | .httpStatus code => code == 408 || code == 429 || (500 ≤ code && code ≤ 599)
  | .connectionReset => true
  | .contextOverflow => false
  | .malformedRequest => false

/-- Modelled from the spec: exponential backoff base delay in seconds for the
0-based retry attempt: "initial delay 2 s, factor 2, cap 20 s" (§4.2). -/
def baseDelay (attempt : Nat) : Nat := min (2 * 2 ^ attempt) 20

/-- Modelled from the spec: "full jitter" — the actual wait before a retry is
drawn uniformly from `[0, baseDelay]`; the randomness source is abstracted as
a function `jit` and reduced into range (§4.2). -/
def jitteredDelay (jit : Nat → Nat) (attempt : Nat) : Nat :=
  jit attempt % (baseDelay attempt + 1)

/-- Modelled from the spec: the retry budget, "maximum 8 attempts" (§4.2). -/
def maxAttempts : Nat := 8

/-- Outcome of one provider attempt (abstracting the HTTP exchange). -/
inductive AttemptOutcome
  | ok
  | err (e : ProvError)
deriving DecidableEq

/-- Result of the retry loop: how many attempts were made, and the error that
was surfaced when the request did not succeed. -/
inductive RetryResult
  | success (attempts : Nat)
  | failed (e : ProvError) (attempts : Nat)
deriving DecidableEq

/-- Number of provider attempts a retry outcome records. -/
def attemptsOf : RetryResult → Nat
  | .success n => n
  | .failed _ n => n

/-- Modelled from the spec: the retry loop, §4.2.  `f` gives the outcome of
each (0-based) attempt; `used` counts attempts already made; the remaining
budget starts at `maxAttempts`.  A non-retryable error, or exhaustion of the
budget, surfaces the error immediately. -/
def retryAux (f : Nat → AttemptOutcome) (used : Nat) : Nat → RetryResult
  | 0 => .failed .malformedRequest used
  | Nat.succ remaining =>
    match f used with
    | .ok => .success (used + 1)
    | .err e =>
      if retryable e = true ∧ remaining ≠ 0 then
        retryAux f (used + 1) remaining
      else
        .failed e (used + 1)

/-- Modelled from the spec: one provider request with its retry policy. -/
def providerRetry (f : Nat → AttemptOutcome) : RetryResult :=
  retryAux f 0 maxAttempts

/-! ## Store counters (spec §3, §4.5) -/

/-- Modelled from the spec: a message row as the session store sees it — an
identifier plus a deleted flag (§3); the store is absent from the sources. -/
structure MsgRec where
  id : String
  deleted : Bool
deriving DecidableEq

/-- Modelled from the spec: the store mutations that touch a session's
counters (§3, §4.5, §6): committing a message, deleting a message, and adding
the usage reported by a provider call (prompt tokens, completion tokens,
monetary cost). -/
inductive StoreOp
  | commitMessage (id : String)
  | deleteMessage (id : String)
  | addUsage (prompt completion : Nat) (cost : ℚ)

/-- Modelled from the spec: the per-session durable state — cumulative
counters and the session's messages (§3). -/
structure SessionState where
  promptTokens : Nat
  completionTokens : Nat
  cost : ℚ
  messageCount : Nat
  messages : List MsgRec
deriving DecidableEq

/-- Number of non-deleted messages in a message list. -/
def liveCount (msgs : List MsgRec) : Nat :=
  (msgs.filter (fun m => !m.deleted)).length

/-- Mark the first non-deleted message with the given id as deleted. -/
def markDeleted (id : String) : List MsgRec → List MsgRec
  | [] => []
  | m :: rest =>
    if m.id == id && !m.deleted then { m with deleted := true } :: rest
    else m :: markDeleted id rest

/-- Modelled from the spec: applying one store mutation to a session's state.
Committing a message appends a non-deleted row and bumps `messageCount`;
deleting marks an existing live row deleted and decrements `messageCount`;
usage adds to the cumulative counters (§3, §4.5). -/
def applyOp (st : SessionState) : StoreOp → SessionState
  | .commitMessage id =>
    { st with messages := st.messages ++ [⟨id, false⟩],
              messageCount := st.messageCount + 1 }
  | .deleteMessage id =>
    if st.messages.any (fun m => m.id == id && !m.deleted) then
      { st with messages := markDeleted id st.messages,
                messageCount := st.messageCount - 1 }
    else st
  | .addUsage p c cost =>
    { st with promptTokens := st.promptTokens + p,
              completionTokens := st.completionTokens + c,
              cost := st.cost + cost }

/-- Applying a sequence of store mutations. -/
def applyOps (st : SessionState) (ops : List StoreOp) : SessionState :=
  ops.foldl applyOp st

/-- A freshly created session: zero counters, no messages (§3). -/
def newSession : SessionState := ⟨0, 0, 0, 0, []⟩

/-- The usage recorded by a store mutation is non-negative (token counts are
naturals; the monetary cost of a usage report is never negative). -/
def opOk : StoreOp → Bool
  | .addUsage _ _ cost => decide (0 ≤ cost)
  | _ => true

/-- Pointwise order on the monotone session counters. -/
def counterLe (s t : SessionState) : Prop :=
  s.promptTokens ≤ t.promptTokens ∧ s.completionTokens ≤ t.completionTokens ∧
    s.cost ≤ t.cost

/-! ## Democratic voting system

Embedded from `internal/swarm/voting/democratic.go`.  Go `float64` values are
modelled as exact rationals `ℚ` (the literals `0.5`, `0.75` are exactly
representable; `0.66` is modelled as `66/100`), Go `int` as `ℤ`,
`time.Time` instants as integers, and Go maps as association lists whose
insertion replaces the entry of an existing key in place. -/

/-- Go constant `VoteTypeMajority` ("simple majority (>50%)"). -/
def VoteTypeMajority : String := "majority"

/-- Go constant `VoteTypeSuper` ("super majority (>66%)"). -/
def VoteTypeSuper : String := "super"

/-- Go constant `VoteTypeUnanimous` ("all agree"). -/
def VoteTypeUnanimous : String := "unanimous"

/-- Go constant `VoteTypeWeighted` ("weighted by agent expertise"). -/
def VoteTypeWeighted : String := "weighted"

/-- Go constant `VoteTypeConsensus` ("iterative consensus building"). -/
def VoteTypeConsensus : String := "consensus"

/-- Go struct `Vote`: a single vote. -/
structure Vote where
  AgentID : String
  Decision : Bool
  Confidence : ℚ
  Reasoning : String
  Timestamp : ℤ
deriving DecidableEq

/-- Go struct `VoteProposal` (fields not used by the verified operations are
kept as plain data). -/
structure VoteProposal where
  ID : String
  Description : String
  ProposedBy : String
  CreatedAt : ℤ
  Deadline : ℤ
deriving DecidableEq

/-- Go struct `VoteResult`: the outcome of a vote. -/
structure VoteResult where
  Decision : Bool
  YesVotes : ℤ
  NoVotes : ℤ
  TotalVotes : ℤ
  YesPercentage : ℚ
  Confidence : ℚ
  Reasoning : List String
  CompletedAt : ℤ
deriving DecidableEq

/-- Go struct `VoteSession`: a voting process.  `Votes` is the Go map
`map[string]Vote` keyed by agent id, `AgentWeights` the weights map. -/
structure VoteSession where
  ID : String
  Proposal : VoteProposal
  VoteType : String
  Votes : List (String × Vote)
  Completed : Bool
  Result : Option VoteResult
  MinVoters : ℤ
  AgentWeights : List (String × ℚ)
deriving DecidableEq

/-- Go struct `DemocraticVotingSystem`: the session map. -/
structure DemocraticVotingSystem where
  sessions : List (String × VoteSession)
deriving DecidableEq

/-- Go map assignment `m[k] = v`: replace the entry of an existing key in
place, otherwise append a new entry. -/
def insertA {α : Type} : List (String × α) → String → α → List (String × α)
  | [], k, v => [(k, v)]
  | (k', v') :: rest, k, v =>
    if k' = k then (k, v) :: rest else (k', v') :: insertA rest k v

/-- Go conversion `int(x)` from `float64`: truncation toward zero. -/
def goIntOfRat (q : ℚ) : ℤ := if 0 ≤ q then ⌊q⌋ else ⌈q⌉

/-- The default branch of `finalizeVote`'s tally loop: count yes and no
votes. -/
def tallyDefault (votes : List (String × Vote)) : ℤ × ℤ :=
  votes.foldl
    (fun acc kv => if kv.2.Decision then (acc.1 + 1, acc.2) else (acc.1, acc.2 + 1))
    (0, 0)

/-- The `totalConfidence` accumulator of `finalizeVote`'s default branch. -/
def totalConfidenceOf (votes : List (String × Vote)) : ℚ :=
  votes.foldl (fun acc kv => acc + kv.2.Confidence) 0

/-- The `reasoning` accumulator of `finalizeVote`'s default branch. -/
def reasoningOf (votes : List (String × Vote)) : List String :=
  votes.filterMap (fun kv => if kv.2.Reasoning = "" then none else some kv.2.Reasoning)

/-- Go `calculateWeightedVotes`: weight defaults to `1.0` for agents without
an entry in `AgentWeights`; the accumulated float weights are truncated by
`int(...)`. -/
def lookupWeight (weights : List (String × ℚ)) (agentID : String) : ℚ :=
  match List.lookup agentID weights with
  | some w => w
  | none => 1

/-- Go `calculateWeightedVotes` (democratic.go lines 236-253). -/
def calculateWeightedVotes (s : VoteSession) : ℤ × ℤ :=
  let yesWeight := s.Votes.foldl
    (fun acc kv => if kv.2.Decision then acc + lookupWeight s.AgentWeights kv.1 else acc) 0
  let noWeight := s.Votes.foldl
    (fun acc kv => if kv.2.Decision then acc else acc + lookupWeight s.AgentWeights kv.1) 0
  (goIntOfRat yesWeight, goIntOfRat noWeight)

/-- Go `determineDecision` (democratic.go lines 256-276): the Go float
literals `0.5`, `0.66`, `0.75` are the exact rationals below. -/
def determineDecision (voteType : String) (yesPercentage : ℚ)
    (yesCount totalVotes : ℤ) : Bool :=
  if voteType = VoteTypeMajority then decide ((1 : ℚ)/2 < yesPercentage)
  else if voteType = VoteTypeSuper then decide ((66 : ℚ)/100 < yesPercentage)
  else if voteType = VoteTypeUnanimous then decide (yesCount = totalVotes ∧ 0 < totalVotes)
  else if voteType = VoteTypeWeighted then decide ((1 : ℚ)/2 < yesPercentage)
  else if voteType = VoteTypeConsensus then decide ((3 : ℚ)/4 < yesPercentage)
  else decide ((1 : ℚ)/2 < yesPercentage)

/-- The yes/no counts `finalizeVote` computes: weighted sessions go through
`calculateWeightedVotes`, every other vote type through the default tally. -/
def voteCounts (s : VoteSession) : ℤ × ℤ :=
  if s.VoteType = VoteTypeWeighted then calculateWeightedVotes s
  else tallyDefault s.Votes

/-- The `yesPercentage` computation of `finalizeVote`: guarded division,
`0.0` when no votes were counted. -/
def votePercentage (yes no : ℤ) : ℚ :=
  if 0 < yes + no then (yes : ℚ) / ((yes + no : ℤ) : ℚ) else 0

/-- Go `finalizeVote` (democratic.go lines 186-233): the `VoteResult` it
stores.  `now` stands for `time.Now()`. -/
def finalizeResult (s : VoteSession) (now : ℤ) : VoteResult :=
  { Decision := determineDecision s.VoteType
      (votePercentage (voteCounts s).1 (voteCounts s).2)
      (voteCounts s).1 ((voteCounts s).1 + (voteCounts s).2),
    YesVotes := (voteCounts s).1,
    NoVotes := (voteCounts s).2,
    TotalVotes := (voteCounts s).1 + (voteCounts s).2,
    YesPercentage := votePercentage (voteCounts s).1 (voteCounts s).2,
    Confidence :=
      if 0 < s.Votes.length then
        (if s.VoteType = VoteTypeWeighted then 0 else totalConfidenceOf s.Votes)
          / (s.Votes.length : ℚ)
      else 0,
    Reasoning := if s.VoteType = VoteTypeWeighted then [] else reasoningOf s.Votes,
    CompletedAt := now }

/-- Go `finalizeVote`: store the result and mark the session completed. -/
def finalizeVote (s : VoteSession) (now : ℤ) : VoteSession :=
  { s with Result := some (finalizeResult s now), Completed := true }

/-- The session update `CastVote` performs on success: the vote (with its
timestamp set to `now`) is stored under its agent id, then the session is
finalized when the vote count has reached `MinVoters`. -/
def castVoteUpdate (s : VoteSession) (now : ℤ) (vote : Vote) : VoteSession :=
  let v := { vote with Timestamp := now }
  let votes' := insertA s.Votes vote.AgentID v
  let s' := { s with Votes := votes' }
  if s.MinVoters ≤ (votes'.length : ℤ) then finalizeVote s' now else s'

/-- Go `CastVote` (democratic.go lines 113-142).  `now` stands for
`time.Now()`; the error return is modelled as an optional message next to
the (possibly unchanged) system state. -/
def castVote (dvs : DemocraticVotingSystem) (now : ℤ) (sessionID : String)
    (vote : Vote) : DemocraticVotingSystem × Option String :=
  match List.lookup sessionID dvs.sessions with
  | none => (dvs, some ("vote session not found: " ++ sessionID))
  | some s =>
    if s.Completed then (dvs, some "vote session already completed")
    else if s.Proposal.Deadline < now then (dvs, some "vote deadline passed")
    else (⟨insertA dvs.sessions sessionID (castVoteUpdate s now vote)⟩, none)

/-- A weighted vote session with a negative agent weight: one yes vote whose
weight is `-1`. -/
def negWeightSession : VoteSession :=
  { ID := "s1",
    Proposal := ⟨"p1", "demo", "agent1", 0, 100⟩,
    VoteType := VoteTypeWeighted,
    Votes := [("agent1", ⟨"agent1", true, 1, "", 0⟩)],
    Completed := false,
    Result := none,
    MinVoters := 1,
    AgentWeights := [("agent1", -1)] }

/-- A majority session with two yes votes and one no vote. -/
def majSession : VoteSession :=
  { ID := "s2",
    Proposal := ⟨"p2", "demo", "a", 0, 100⟩,
    VoteType := VoteTypeMajority,
    Votes := [("a", ⟨"a", true, 1, "", 0⟩), ("b", ⟨"b", true, 1, "", 0⟩),
              ("c", ⟨"c", false, 1, "", 0⟩)],
    Completed := false,
    Result := none,
    MinVoters := 3,
    AgentWeights := [] }

/-- A fresh single-session voting system used to exercise `castVote`. -/
def openSession : VoteSession :=
  { ID := "s3",
    Proposal := ⟨"p3", "demo", "a", 0, 100⟩,
    VoteType := VoteTypeMajority,
    Votes := [],
    Completed := false,
    Result := none,
    MinVoters := 5,
    AgentWeights := [] }

/-- A voting system holding only `openSession`. -/
def oneSessionSystem : DemocraticVotingSystem := ⟨[("s3", openSession)]⟩

/-! ## Hierarchical memory store

Embedded from `internal/swarm/memory/hierarchical.go` (`cosineSimilarity` and
`VectorSearch`).  Go `float64` is modelled as `ℚ`; the nondeterministic Go
map iteration over the stored memories is abstracted as a list. -/

/-- Go struct `Memory` (memory/types.go), restricted to the fields the
verified operations read. -/
structure Memory where
  ID : String
  Content : String
  Vector : List ℚ
  Tags : List String
  AccessCount : ℤ
deriving DecidableEq

/-- The sum `Σ a_i * b_i` the `cosineSimilarity` loop accumulates (the loop
runs over `range a` after the length guard, so both vectors have the same
length at every use). -/
def dotProduct (a b : List ℚ) : ℚ := (List.zipWith (· * ·) a b).sum

/-- Go `cosineSimilarity` (hierarchical.go lines 401-418): returns `0` when
the lengths differ or either self-dot-product (`normA`, `normB`) is zero,
otherwise `dotProduct / (normA * normB)`. -/
def cosineSimilarity (a b : List ℚ) : ℚ :=
  if a.length ≠ b.length then 0
  else
    if dotProduct a a = 0 ∨ dotProduct b b = 0 then 0
    else dotProduct a b / (dotProduct a a * dotProduct b b)

/-- The `scored` list `VectorSearch` builds: every stored memory with a
non-empty vector, paired with its similarity to the query vector. -/
def scoredList (ms : List Memory) (v : List ℚ) : List (Memory × ℚ) :=
  ms.filterMap fun m =>
    if 0 < m.Vector.length then some (m, cosineSimilarity v m.Vector) else none

/-- One pass of the exchange sort in `VectorSearch` (the inner `j` loop for a
fixed `i`): returns the maximum-score element deposited at position `i` and
the remaining suffix after the swaps. -/
def selectMax (x : Memory × ℚ) : List (Memory × ℚ) → (Memory × ℚ) × List (Memory × ℚ)
  | [] => (x, [])
  | y :: ys =>
    if x.2 < y.2 then
      ((selectMax y ys).1, x :: (selectMax y ys).2)
    else
      ((selectMax x ys).1, y :: (selectMax x ys).2)

/-- The full double loop of `VectorSearch`'s score sort ("simple bubble sort
for now"): each outer iteration moves the maximum of the remaining suffix to
the front. -/
def sortLoop : List (Memory × ℚ) → List (Memory × ℚ)
  | [] => []
  | x :: xs => (selectMax x xs).1 :: sortLoop (selectMax x xs).2
termination_by l => l.length
decreasing_by
  have hlen : ∀ (y : Memory × ℚ) (l : List (Memory × ℚ)),
      (selectMax y l).2.length = l.length := by
    intro y l
    induction l generalizing y with
    | nil => simp [selectMax]
    | cons z zs ih =>
      simp only [selectMax]
      split
      · simp [ih]
      · simp [ih]
  simp only [hlen, List.length_cons]
  omega

/-- Go `VectorSearch` (hierarchical.go lines 176-211): score, sort
descending, and return the memories of the first `limit` entries (the Go
result loop `i < len(scored) && i < limit` takes the first `max limit 0`
sorted entries). -/
def VectorSearch (ms : List Memory) (v : List ℚ) (limit : ℤ) : List Memory :=
  ((sortLoop (scoredList ms v)).take limit.toNat).map Prod.fst

/-! ## Agent inference loop

Modelled from the spec: the agent orchestrator of §4.1 (with §5 and §8) is
not part of the checked-in sources.  A run is modelled by the sequence of
provider turns it consumes: each turn carries the content pieces streamed for
the in-progress assistant message and either ends the run (provider finish,
provider error, or cancellation) or declares tool calls, in which case the
scripted tool outcomes (possibly synthetic error stubs) are committed as one
tool-role message and the loop continues. -/

/-- Modelled from the spec: the finish-reason content-part values, §3. -/
inductive FinishReason
  | endTurn
  | maxTokens
  | toolUse
  | canceled
  | error
  | permissionDenied
deriving DecidableEq

/-- Modelled from the spec: message content parts, §3. -/
inductive Part
  | text (s : String)
  | reasoning (s : String)
  | toolCall (id name input : String) (finished : Bool)
  | toolResult (toolCallId content : String) (isError : Bool)
  | finish (r : FinishReason)
deriving DecidableEq

/-- Modelled from the spec: message roles, §3. -/
inductive Role
  | user
  | assistant
  | tool
  | system
deriving DecidableEq

/-- Modelled from the spec: a committed message, §3. -/
structure Message where
  role : Role
  parts : List Part
  finished : Bool
deriving DecidableEq

/-- A streamed piece of assistant content (text or reasoning delta already
assembled), §4.1 step 4. -/
inductive Piece
  | text (s : String)
  | reasoning (s : String)
deriving DecidableEq

/-- The part a streamed piece becomes on the assistant message. -/
def Piece.toPart : Piece → Part
  | .text s => Part.text s
  | .reasoning s => Part.reasoning s

/-- A tool call declared by the provider (§4.1 step 3). -/
structure ToolCall where
  id : String
  name : String
  input : String
deriving DecidableEq

/-- The outcome a dispatched tool call produced (§4.3): possibly an error
stub such as "request cancelled" or "permission denied". -/
structure ToolOutcome where
  content : String
  isError : Bool
deriving DecidableEq

/-- Modelled from the spec: one provider turn of a run script (§4.1 steps
3-7).  `finishTurn` is a provider `finish(end_turn|max_tokens)`; `toolTurn`
is `finish(tool_use)` with the declared calls and their dispatched outcomes;
`errTurn` is a provider error; `cancelTurn` is cancellation observed while
streaming, with the outstanding tool calls at that moment. -/
inductive Turn
  | finishTurn (pieces : List Piece) (maxTok : Bool)
  | toolTurn (pieces : List Piece) (calls : List (ToolCall × ToolOutcome))
  | errTurn (pieces : List Piece)
  | cancelTurn (pieces : List Piece) (outstanding : List ToolCall)
deriving DecidableEq

/-- The kind of error a run surfaces. -/
inductive ErrKind
  | canceled
  | loopLimit
  | provider
  | protocol
deriving DecidableEq

/-- Modelled from the spec: the terminal event of the `run` stream, §4.1. -/
inductive RunResult
  | response
  | errorResult (k : ErrKind)
deriving DecidableEq

/-- The content parts of the streamed pieces. -/
def assistantParts (pieces : List Piece) : List Part := pieces.map Piece.toPart

/-- The part of a finished tool call on the assistant message. -/
def toolCallPart (c : ToolCall) : Part := Part.toolCall c.id c.name c.input true

/-- The assistant message committed on `finish(tool_use)` (§4.1 step 6). -/
def assistantToolMsg (pieces : List Piece)
    (calls : List (ToolCall × ToolOutcome)) : Message :=
  ⟨Role.assistant,
    assistantParts pieces ++ calls.map (fun c => toolCallPart c.1)
      ++ [Part.finish FinishReason.toolUse], true⟩

/-- The tool-role message committed after dispatch: one tool-result part per
call, in declaration order (§4.1 step 6). -/
def toolResultMsg (calls : List (ToolCall × ToolOutcome)) : Message :=
  ⟨Role.tool,
    calls.map (fun c => Part.toolResult c.1.id c.2.content c.2.isError), true⟩

/-- The assistant message committed on `finish(end_turn|max_tokens)` (§4.1
step 5). -/
def finishMsg (pieces : List Piece) (maxTok : Bool) : Message :=
  ⟨Role.assistant,
    assistantParts pieces
      ++ [Part.finish (if maxTok then FinishReason.maxTokens
            else FinishReason.endTurn)], true⟩

/-- The assistant message committed on a provider error (§4.1 step 7). -/
def errMsg (pieces : List Piece) : Message :=
  ⟨Role.assistant, assistantParts pieces ++ [Part.finish FinishReason.error],
    true⟩

/-- The assistant message committed on cancellation: the streamed content is
preserved and the message is finished with reason `canceled` (§4.1). -/
def cancelMsg (pieces : List Piece) (outstanding : List ToolCall) : Message :=
  ⟨Role.assistant,
    assistantParts pieces ++ outstanding.map toolCallPart
      ++ [Part.finish FinishReason.canceled], true⟩

/-- The tool-role message of synthetic stubs committed on cancellation:
every outstanding tool call receives an `is_error` result with content
"request cancelled" (§4.1). -/
def cancelStubMsg (outstanding : List ToolCall) : Message :=
  ⟨Role.tool,
    outstanding.map (fun c => Part.toolResult c.id "request cancelled" true),
    true⟩

/-- The assistant message committed when the loop limit is exceeded: an
explanatory text part and finish-reason `error` (§4.1 step 8). -/
def loopLimitMsg : Message :=
  ⟨Role.assistant,
    [Part.text "maximum iterations reached", Part.finish FinishReason.error],
    true⟩

/-- The committed user message that starts the run (§4.1 step 1). -/
def userMsg (s : String) : Message := ⟨Role.user, [Part.text s], true⟩

/-- Modelled from the spec: the inference loop of §4.1 over a run script.
Returns the messages committed by the loop, the terminal run event, and the
number of provider iterations performed.  `fuel` is the remaining iteration
budget; exhausting it with provider turns still pending terminates with the
loop-limit error message (§4.1 step 8); a script that ends without a
terminal turn is a protocol error. -/
def runLoop : Nat → List Turn → List Message × RunResult × Nat
  | _, [] => ([], RunResult.errorResult ErrKind.protocol, 0)
  | 0, _ :: _ => ([loopLimitMsg], RunResult.errorResult ErrKind.loopLimit, 0)
  | Nat.succ fuel, t :: rest =>
    match t with
    | .finishTurn pieces maxTok => ([finishMsg pieces maxTok], RunResult.response, 1)
    | .errTurn pieces =>
      ([errMsg pieces], RunResult.errorResult ErrKind.provider, 1)
    | .cancelTurn pieces outstanding =>
      (cancelMsg pieces outstanding
          :: (if outstanding.isEmpty then [] else [cancelStubMsg outstanding]),
        RunResult.errorResult ErrKind.canceled, 1)
    | .toolTurn pieces calls =>
      (assistantToolMsg pieces calls :: toolResultMsg calls
          :: (runLoop fuel rest).1,
        (runLoop fuel rest).2.1, (runLoop fuel rest).2.2 + 1)

/-- Modelled from the spec: the default loop limit, "default 200" (§4.1). -/
def maxIterationsDefault : Nat := 200

/-- Modelled from the spec: a full `run` (§4.1): commit the user message,
then drive the inference loop under the configured iteration limit. -/
def run (limit : Nat) (userText : String) (script : List Turn) :
    List Message × RunResult × Nat :=
  (userMsg userText :: (runLoop limit script).1, (runLoop limit script).2)

/-- Whether a turn is a tool-use turn (the only non-terminal kind). -/
def isToolTurn : Turn → Bool
  | .toolTurn _ _ => true
  | _ => false

/-- A well-formed turn: a `finish(tool_use)` turn declares at least one tool
call (the spec leaves zero-call tool-use turns as an open question, §9). -/
def goodTurn : Turn → Bool
  | .toolTurn _ calls => !calls.isEmpty
  | _ => true

/-- The tool-call ids a turn declares. -/
def turnCallIds : Turn → List String
  | .toolTurn _ calls => calls.map (fun c => c.1.id)
  | .cancelTurn _ outstanding => outstanding.map (fun c => c.id)
  | _ => []

/-- All tool-call ids of a script, in order.  The spec requires them unique
within a session (§3, Ownership). -/
def scriptCallIds : List Turn → List String
  | [] => []
  | t :: rest => turnCallIds t ++ scriptCallIds rest

/-- The tool-call ids on a message's parts, in order. -/
def callIds (m : Message) : List String :=
  m.parts.filterMap fun p =>
    match p with
    | Part.toolCall id _ _ _ => some id
    | _ => none

/-- The tool-result ids on a message's parts, in order. -/
def resultIds (m : Message) : List String :=
  m.parts.filterMap fun p =>
    match p with
    | Part.toolResult id _ _ => some id
    | _ => none

/-- An assistant message whose parts carry finish-reason `tool_use`. -/
def isToolUseAssistant (m : Message) : Bool :=
  m.role == Role.assistant
    && decide (Part.finish FinishReason.toolUse ∈ m.parts)

/-- Whether `m` is a tool-role message whose tool-result parts correspond
one-to-one, in order, to the tool-call parts of `A` (matched by id). -/
def resultMatches (A m : Message) : Bool :=
  m.role == Role.tool && decide (resultIds m = callIds A)

/-- The messages a prefix of tool-use turns commits. -/
def emitPre : List Turn → List Message
  | [] => []
  | Turn.toolTurn pieces calls :: rest =>
    assistantToolMsg pieces calls :: toolResultMsg calls :: emitPre rest
  | _ :: rest => emitPre rest

/-- A concrete script: one tool turn, then a finishing text turn. -/
def pairScript : List Turn :=
  [Turn.toolTurn [] [(⟨"T1", "list", "src"⟩, ⟨"a.go", false⟩)],
   Turn.finishTurn [Piece.text "done"] false]

/-- A concrete script of two pathological tool turns. -/
def limitScript : List Turn :=
  [Turn.toolTurn [] [(⟨"T1", "a", "x"⟩, ⟨"r", false⟩)],
   Turn.toolTurn [] [(⟨"T2", "a", "y"⟩, ⟨"r", false⟩)]]

end OpenCode

namespace OpenCode

/-! ## Theorems -/

theorem counterLe_trans {a b c : SessionState} (h1 : counterLe a b)
    (h2 : counterLe b c) : counterLe a c :=
  ⟨le_trans h1.1 h2.1, le_trans h1.2.1 h2.2.1, le_trans h1.2.2 h2.2.2⟩

theorem liveCount_append (a b : List MsgRec) :
    liveCount (a ++ b) = liveCount a + liveCount b := by
  simp [liveCount, List.filter_append]

theorem markDeleted_liveCount (id : String) (l : List MsgRec)
    (h : l.any (fun m => m.id == id && !m.deleted) = true) :
    liveCount (markDeleted id l) + 1 = liveCount l := by
  induction l with
  | nil => simp at h
  | cons m rest ih =>
    cases hdel : m.deleted with
    | true =>
      have hm : (m.id == id && !m.deleted) = false := by simp [hdel]
      have hrest : rest.any (fun x => x.id == id && !x.deleted) = true := by
        simpa [List.any_cons, hm] using h
      have hr := ih hrest
      simp only [markDeleted, hm, Bool.false_eq_true, if_false]
      simp only [liveCount, List.filter_cons, hdel] at hr ⊢
      simpa using hr
    | false =>
      cases hid : (m.id == id) with
      | true =>
        have hm : (m.id == id && !m.deleted) = true := by simp [hid, hdel]
        simp only [markDeleted, hm, if_true]
        simp only [liveCount, List.filter_cons, hdel]
        simp
      | false =>
        have hm : (m.id == id && !m.deleted) = false := by simp [hid]
        have hrest : rest.any (fun x => x.id == id && !x.deleted) = true := by
          simpa [List.any_cons, hm] using h
        have hr := ih hrest
        simp only [markDeleted, hm, Bool.false_eq_true, if_false]
        simp only [liveCount, List.filter_cons, hdel] at hr ⊢
        simp at hr ⊢
        omega

theorem applyOp_inv (st : SessionState) (op : StoreOp)
    (h : st.messageCount = liveCount st.messages) :
    (applyOp st op).messageCount = liveCount (applyOp st op).messages := by
  cases op with
  | commitMessage id =>
    show st.messageCount + 1 = liveCount (st.messages ++ [⟨id, false⟩])
    rw [liveCount_append, h]
    rfl
  | deleteMessage id =>
    simp only [applyOp]
    split
    · next hc =>
      show st.messageCount - 1 = liveCount (markDeleted id st.messages)
      have key := markDeleted_liveCount id st.messages hc
      omega
    · exact h
  | addUsage p c cost => exact h

theorem applyOps_inv (ops : List StoreOp) (st : SessionState)
    (h : st.messageCount = liveCount st.messages) :
    (applyOps st ops).messageCount = liveCount (applyOps st ops).messages := by
  induction ops generalizing st with
  | nil => exact h
  | cons op rest ih => exact ih (applyOp st op) (applyOp_inv st op h)

theorem applyOp_counterLe (st : SessionState) (op : StoreOp)
    (h : opOk op = true) : counterLe st (applyOp st op) := by
  cases op with
  | commitMessage id => exact ⟨le_refl _, le_refl _, le_refl _⟩
  | deleteMessage id =>
    simp only [applyOp]
    split
    · exact ⟨le_refl _, le_refl _, le_refl _⟩
    · exact ⟨le_refl _, le_refl _, le_refl _⟩
  | addUsage p c cost =>
    have hc : (0 : ℚ) ≤ cost := by simpa [opOk] using h
    refine ⟨Nat.le_add_right _ _, Nat.le_add_right _ _, ?_⟩
    show st.cost ≤ st.cost + cost
    linarith

theorem applyOps_counterLe (ops : List StoreOp) (st : SessionState)
    (h : ∀ op ∈ ops, opOk op = true) : counterLe st (applyOps st ops) := by
  induction ops generalizing st with
  | nil => exact ⟨le_refl _, le_refl _, le_refl _⟩
  | cons op rest ih =>
    exact counterLe_trans (applyOp_counterLe st op (h op (by simp)))
      (ih (applyOp st op) (fun o ho => h o (by simp [ho])))

/-- Claim C6: over any sequence of store operations on a session, the
prompt-token counter, completion-token counter and monetary cost never
decrease, and after every committed mutation `message_count` equals the
number of non-deleted messages of the session. -/
theorem session_counters_invariant (ops₁ ops₂ : List StoreOp)
    (h : ∀ op ∈ ops₂, opOk op = true) :
    counterLe (applyOps newSession ops₁) (applyOps newSession (ops₁ ++ ops₂))
      ∧ (applyOps newSession ops₁).messageCount
          = liveCount (applyOps newSession ops₁).messages := by
  constructor
  · have e1 : applyOps newSession (ops₁ ++ ops₂)
        = applyOps (applyOps newSession ops₁) ops₂ := by
      simp [applyOps, List.foldl_append]
    rw [e1]
    exact applyOps_counterLe ops₂ _ h
  · exact applyOps_inv ops₁ newSession rfl

/-- Witness for C6 at a concrete operation sequence. -/
theorem session_counters_invariant_witness :
    counterLe (applyOps newSession [StoreOp.commitMessage "m1"])
        (applyOps newSession
          ([StoreOp.commitMessage "m1"] ++ [StoreOp.addUsage 5 7 (3 : ℚ)]))
      ∧ (applyOps newSession [StoreOp.commitMessage "m1"]).messageCount
          = liveCount (applyOps newSession [StoreOp.commitMessage "m1"]).messages :=
  session_counters_invariant [StoreOp.commitMessage "m1"]
    [StoreOp.addUsage 5 7 (3 : ℚ)] (by decide)

/-- Claim C7: every tool's output is truncated to the configured cap with a
marker appended on truncation, so no tool result exceeds the cap plus the
marker; the default cap is 32 KiB. -/
theorem truncateOutput_bounded (cap : Nat) (s : List Char) :
    (truncateOutput cap s).length ≤ cap + truncationMarker.length
      ∧ (s.length ≤ cap → truncateOutput cap s = s)
      ∧ (cap < s.length → truncateOutput cap s = s.take cap ++ truncationMarker)
      ∧ (truncateOutput defaultOutputCap s).length
          ≤ 32 * 1024 + truncationMarker.length := by
  refine ⟨?_, ?_, ?_, ?_⟩
  · by_cases h : s.length ≤ cap
    · simp only [truncateOutput, if_pos h]
      omega
    · simp only [truncateOutput, if_neg h, List.length_append, List.length_take]
      omega
  · intro h
    simp [truncateOutput, h]
  · intro h
    have h2 : ¬ s.length ≤ cap := by omega
    simp [truncateOutput, h2]
  · by_cases h : s.length ≤ defaultOutputCap
    · simp only [truncateOutput, if_pos h]
      have hd : defaultOutputCap = 32 * 1024 := rfl
      omega
    · simp only [truncateOutput, if_neg h, List.length_append, List.length_take]
      have hd : defaultOutputCap = 32 * 1024 := rfl
      omega

/-- Witness for C7 at a concrete cap and output. -/
theorem truncateOutput_bounded_witness :
    truncateOutput 4 "hello".data = "hell".data ++ truncationMarker :=
  (truncateOutput_bounded 4 "hello".data).2.2.1 (by decide)

/-- Claim C5: a permission request whose `(tool, path)` pair is in the
session's auto-approval set returns allow immediately, creates no
permission-request record, publishes no bus event, and leaves the
auto-approval set unchanged. -/
theorem permissionRequest_autoApproved (approvals : List (String × String))
    (toolName action path : String) (ui : UIDecision)
    (h : (toolName, path) ∈ approvals) :
    permissionRequest approvals toolName action path ui
      = (Decision.allow, none, [], approvals) := by
  simp [permissionRequest, h]

/-- Witness for C5 at a concrete auto-approved request. -/
theorem permissionRequest_autoApproved_witness :
    permissionRequest [("shell", "/tmp")] "shell" "execute" "/tmp" UIDecision.deny
      = (Decision.allow, none, [], [("shell", "/tmp")]) :=
  permissionRequest_autoApproved [("shell", "/tmp")] "shell" "execute" "/tmp"
    UIDecision.deny (by decide)

theorem retryAux_attempts_le (f : Nat → AttemptOutcome) :
    ∀ fuel used, attemptsOf (retryAux f used fuel) ≤ used + fuel := by
  intro fuel
  induction fuel with
  | zero =>
    intro used
    simp [retryAux, attemptsOf]
  | succ n ih =>
    intro used
    cases hf : f used with
    | ok =>
      simp only [retryAux, hf, attemptsOf]
      omega
    | err e =>
      simp only [retryAux, hf]
      split
      · exact le_trans (ih (used + 1)) (by omega)
      · simp only [attemptsOf]
        omega

theorem retryAux_attempts_ge (f : Nat → AttemptOutcome) :
    ∀ fuel used, fuel ≠ 0 → used + 1 ≤ attemptsOf (retryAux f used fuel) := by
  intro fuel
  induction fuel with
  | zero =>
    intro used h
    exact absurd rfl h
  | succ n ih =>
    intro used _
    cases hf : f used with
    | ok => simp [retryAux, hf, attemptsOf]
    | err e =>
      simp only [retryAux, hf]
      split
      · next hcond => exact le_trans (by omega) (ih (used + 1) hcond.2)
      · simp only [attemptsOf]
        omega

theorem retryAux_not_retryable (f : Nat → AttemptOutcome) (used n : Nat)
    (e : ProvError) (h : retryable e = false) (hf : f used = .err e) :
    retryAux f used (n + 1) = .failed e (used + 1) := by
  simp [retryAux, hf, h]

theorem retryAux_retryable_step (f : Nat → AttemptOutcome) (used n : Nat)
    (e : ProvError) (h : retryable e = true) (hf : f used = .err e)
    (hn : n ≠ 0) : retryAux f used (n + 1) = retryAux f (used + 1) n := by
  simp [retryAux, hf, h, hn]

/-- Claim C3: provider requests retry transient failures (HTTP 408, 429, 5xx,
connection reset) with exponential backoff — initial delay 2 s, doubling,
capped at 20 s, at most 8 attempts, full jitter — while authentication
(401/403), model-not-found (404), context-overflow and malformed-request
errors are never retried and surface immediately. -/
theorem providerRetry_policy (f : Nat → AttemptOutcome) (jit : Nat → Nat)
    (e : ProvError) (k : Nat) :
    attemptsOf (providerRetry f) ≤ maxAttempts
      ∧ maxAttempts = 8
      ∧ baseDelay 0 = 2
      ∧ baseDelay (k + 1) = min (2 * baseDelay k) 20
      ∧ baseDelay k ≤ 20
      ∧ jitteredDelay jit k ≤ baseDelay k
      ∧ ((e = .httpStatus 401 ∨ e = .httpStatus 403 ∨ e = .httpStatus 404
            ∨ e = .contextOverflow ∨ e = .malformedRequest) →
          f 0 = .err e → providerRetry f = .failed e 1)
      ∧ ((e = .httpStatus 408 ∨ e = .httpStatus 429
            ∨ (∃ c, e = .httpStatus c ∧ 500 ≤ c ∧ c ≤ 599)
            ∨ e = .connectionReset) →
          f 0 = .err e → 2 ≤ attemptsOf (providerRetry f)) := by
  refine ⟨?_, rfl, rfl, ?_, min_le_right _ _, ?_, ?_, ?_⟩
  · have := retryAux_attempts_le f maxAttempts 0
    simpa [providerRetry] using this
  · have hx : (2 : Nat) ^ (k + 1) = 2 * 2 ^ k := by
      rw [pow_succ]; ring
    simp only [baseDelay, hx]
    generalize (2 : Nat) * 2 ^ k = x
    omega
  · have h1 : 0 < baseDelay k + 1 := by omega
    have := Nat.mod_lt (jit k) h1
    simp only [jitteredDelay]
    omega
  · intro h hf
    have hre : retryable e = false := by
      rcases h with rfl | rfl | rfl | rfl | rfl <;> rfl
    show retryAux f 0 8 = RetryResult.failed e 1
    exact retryAux_not_retryable f 0 7 e hre hf
  · intro h hf
    have hre : retryable e = true := by
      rcases h with rfl | rfl | ⟨c, rfl, hc1, hc2⟩ | rfl
      · rfl
      · rfl
      · simp [retryable, hc1, hc2]
      · rfl
    have step : retryAux f 0 8 = retryAux f 1 7 :=
      retryAux_retryable_step f 0 7 e hre hf (by omega)
    show 2 ≤ attemptsOf (retryAux f 0 8)
    rw [step]
    have := retryAux_attempts_ge f 7 1 (by omega)
    omega

/-- Witness for C3: a single non-retryable context-overflow error surfaces
after exactly one attempt. -/
theorem providerRetry_policy_witness :
    providerRetry (fun _ => .err .contextOverflow)
      = RetryResult.failed .contextOverflow 1 :=
  (providerRetry_policy (fun _ => .err .contextOverflow) (fun _ => 0)
      .contextOverflow 0).2.2.2.2.2.2.1
    (Or.inr (Or.inr (Or.inr (Or.inl rfl)))) rfl

theorem determineDecision_cases (vt : String) (yes no : ℤ) :
    ((vt = VoteTypeMajority ∨ vt = VoteTypeWeighted) →
        (determineDecision vt (votePercentage yes no) yes (yes + no) = true
          ↔ 0 < yes + no ∧ (1 : ℚ)/2 < (yes : ℚ) / ((yes + no : ℤ) : ℚ)))
      ∧ (vt = VoteTypeSuper →
          (determineDecision vt (votePercentage yes no) yes (yes + no) = true
            ↔ 0 < yes + no ∧ (66 : ℚ)/100 < (yes : ℚ) / ((yes + no : ℤ) : ℚ)))
      ∧ (vt = VoteTypeConsensus →
          (determineDecision vt (votePercentage yes no) yes (yes + no) = true
            ↔ 0 < yes + no ∧ (3 : ℚ)/4 < (yes : ℚ) / ((yes + no : ℤ) : ℚ)))
      ∧ (vt = VoteTypeUnanimous →
          (determineDecision vt (votePercentage yes no) yes (yes + no) = true
            ↔ no = 0 ∧ 0 < yes + no))
      ∧ (yes + no ≤ 0 →
          determineDecision vt (votePercentage yes no) yes (yes + no) = false) := by
  have key : ∀ c : ℚ, 0 ≤ c →
      (decide (c < votePercentage yes no) = true
        ↔ 0 < yes + no ∧ c < (yes : ℚ) / ((yes + no : ℤ) : ℚ)) := by
    intro c hc
    rw [decide_eq_true_eq]
    unfold votePercentage
    by_cases ht : 0 < yes + no
    · rw [if_pos ht]
      simp [ht]
    · rw [if_neg ht]
      constructor
      · intro hcon
        exact absurd (lt_of_le_of_lt hc hcon) (lt_irrefl 0)
      · rintro ⟨h1, -⟩
        exact absurd h1 ht
  refine ⟨?_, ?_, ?_, ?_, ?_⟩
  · rintro (rfl | rfl)
    · show decide ((1 : ℚ)/2 < votePercentage yes no) = true ↔ _
      exact key _ (by norm_num)
    · show decide ((1 : ℚ)/2 < votePercentage yes no) = true ↔ _
      exact key _ (by norm_num)
  · rintro rfl
    show decide ((66 : ℚ)/100 < votePercentage yes no) = true ↔ _
    exact key _ (by norm_num)
  · rintro rfl
    show decide ((3 : ℚ)/4 < votePercentage yes no) = true ↔ _
    exact key _ (by norm_num)
  · rintro rfl
    show decide (yes = yes + no ∧ 0 < yes + no) = true ↔ _
    rw [decide_eq_true_eq]
    omega
  · intro htot
    have hp : votePercentage yes no = 0 := by
      unfold votePercentage
      rw [if_neg (by omega)]
    unfold determineDecision
    rw [hp]
    split_ifs
    all_goals rw [decide_eq_false_iff_not]
    all_goals first
      | (rintro ⟨-, hbad⟩; omega)
      | norm_num

/-- Claim C8 (amended): for every finalized vote session, with counted yes
votes `y` and total counted votes `t`: for majority and weighted the decision
is true iff `t` is positive and `y/t > 0.5`; for super iff `t` is positive
and `y/t > 0.66`; for consensus iff `t` is positive and `y/t > 0.75`; for
unanimous iff no counted vote is a no vote and `t` is positive; whenever `t`
is not positive (zero, or negative as weighted voting with negative agent
weights can produce) the decision is false for every vote type. -/
theorem finalizeVote_decision_spec (s : VoteSession) (now : ℤ) :
    ((s.VoteType = VoteTypeMajority ∨ s.VoteType = VoteTypeWeighted) →
        ((finalizeResult s now).Decision = true
          ↔ 0 < (finalizeResult s now).TotalVotes
            ∧ (1 : ℚ)/2 < ((finalizeResult s now).YesVotes : ℚ)
                / ((finalizeResult s now).TotalVotes : ℚ)))
      ∧ (s.VoteType = VoteTypeSuper →
          ((finalizeResult s now).Decision = true
            ↔ 0 < (finalizeResult s now).TotalVotes
              ∧ (66 : ℚ)/100 < ((finalizeResult s now).YesVotes : ℚ)
                  / ((finalizeResult s now).TotalVotes : ℚ)))
      ∧ (s.VoteType = VoteTypeConsensus →
          ((finalizeResult s now).Decision = true
            ↔ 0 < (finalizeResult s now).TotalVotes
              ∧ (3 : ℚ)/4 < ((finalizeResult s now).YesVotes : ℚ)
                  / ((finalizeResult s now).TotalVotes : ℚ)))
      ∧ (s.VoteType = VoteTypeUnanimous →
          ((finalizeResult s now).Decision = true
            ↔ (finalizeResult s now).NoVotes = 0
              ∧ 0 < (finalizeResult s now).TotalVotes))
      ∧ ((finalizeResult s now).TotalVotes ≤ 0 →
          (finalizeResult s now).Decision = false) := by
  exact determineDecision_cases s.VoteType (voteCounts s).1 (voteCounts s).2

/-- Counterexample to claim C8 as stated: in the weighted session with a
single yes vote of weight `-1`, the counted yes and total votes are both
`-1`, so the "yes fraction" is `1 > 0.5`, yet the decision is `false` (the code's
guarded percentage computation yields `0` because the total is not
positive). -/
theorem finalizeVote_decision_claim_cex :
    negWeightSession.VoteType = VoteTypeWeighted
      ∧ (1 : ℚ)/2 < ((finalizeResult negWeightSession 0).YesVotes : ℚ)
          / ((finalizeResult negWeightSession 0).TotalVotes : ℚ)
      ∧ (finalizeResult negWeightSession 0).Decision = false := by
  have hyes : goIntOfRat (-1 : ℚ) = -1 := by
    rw [goIntOfRat, if_neg (by norm_num)]
    rw [show ((-1 : ℚ)) = ((-1 : ℤ) : ℚ) by norm_num, Int.ceil_intCast]
  have hno : goIntOfRat (0 : ℚ) = 0 := by
    rw [goIntOfRat, if_pos (by norm_num)]
    rw [show ((0 : ℚ)) = ((0 : ℤ) : ℚ) by norm_num, Int.floor_intCast]
  have hw : voteCounts negWeightSession = (-1, 0) := by
    simp [voteCounts, calculateWeightedVotes, negWeightSession, lookupWeight,
      hyes, hno]
  refine ⟨rfl, ?_, ?_⟩
  · simp only [finalizeResult, hw]
    norm_num
  · simp only [finalizeResult, hw]
    have hlast := (determineDecision_cases negWeightSession.VoteType
      (-1 : ℤ) (0 : ℤ)).2.2.2.2 (by omega)
    simpa using hlast

/-- Witness for the amended C8 at the concrete majority session with two yes
votes and one no vote. -/
theorem finalizeVote_decision_spec_witness :
    (finalizeResult majSession 0).Decision = true := by
  have hc : voteCounts majSession = (2, 1) := by
    simp [voteCounts, majSession, tallyDefault, VoteTypeMajority, VoteTypeWeighted]
  refine ((finalizeVote_decision_spec majSession 0).1 (Or.inl rfl)).mpr ?_
  constructor
  · show (0 : ℤ) < (finalizeResult majSession 0).TotalVotes
    simp [finalizeResult, hc]
  · show (1 : ℚ)/2 < ((finalizeResult majSession 0).YesVotes : ℚ)
        / ((finalizeResult majSession 0).TotalVotes : ℚ)
    simp only [finalizeResult, hc]
    norm_num

theorem lookup_insertA_self {α : Type} (l : List (String × α)) (k : String)
    (v : α) : List.lookup k (insertA l k v) = some v := by
  induction l with
  | nil => simp [insertA, List.lookup_cons]
  | cons kv rest ih =>
    cases kv with
    | mk k' v' =>
      by_cases hk : k' = k
      · subst hk
        simp [insertA, List.lookup_cons]
      · have hkk : (k == k') = false := by simp [Ne.symm hk]
        simp [insertA, hk, List.lookup_cons, hkk, ih]

theorem lookup_insertA_ne {α : Type} (l : List (String × α)) (k a : String)
    (v : α) (h : a ≠ k) :
    List.lookup a (insertA l k v) = List.lookup a l := by
  induction l with
  | nil =>
    have hak : (a == k) = false := by simp [h]
    simp [insertA, List.lookup_cons, hak]
  | cons kv rest ih =>
    cases kv with
    | mk k' v' =>
      by_cases hk : k' = k
      · subst hk
        have hak : (a == k') = false := by simp [h]
        simp [insertA, List.lookup_cons, hak]
      · by_cases ha : a = k'
        · subst ha
          simp [insertA, hk, List.lookup_cons]
        · have h1 : (a == k') = false := by simp [ha]
          simp [insertA, hk, List.lookup_cons, h1, ih]

theorem insertA_keys {α : Type} (l : List (String × α)) (k : String) (v : α) :
    (insertA l k v).map Prod.fst
      = if k ∈ l.map Prod.fst then l.map Prod.fst
        else l.map Prod.fst ++ [k] := by
  induction l with
  | nil => simp [insertA]
  | cons kv rest ih =>
    cases kv with
    | mk k' v' =>
      by_cases hk : k' = k
      · subst hk
        simp [insertA]
      · by_cases hm : k ∈ rest.map Prod.fst
        · simp [insertA, hk, ih, hm]
        · simp [insertA, hk, ih, hm, Ne.symm hk]

theorem insertA_keys_nodup {α : Type} (l : List (String × α)) (k : String)
    (v : α) (h : (l.map Prod.fst).Nodup) :
    ((insertA l k v).map Prod.fst).Nodup := by
  rw [insertA_keys]
  split
  · exact h
  · next hm =>
    simp [List.nodup_append, h, hm]

theorem insertA_length {α : Type} (l : List (String × α)) (k : String)
    (v : α) : (insertA l k v).length ≤ l.length + 1 := by
  induction l with
  | nil => simp [insertA]
  | cons kv rest ih =>
    cases kv with
    | mk k' v' =>
      by_cases hk : k' = k
      · subst hk
        simp [insertA]
      · simp only [insertA, if_neg hk, List.length_cons]
        omega

theorem castVoteUpdate_votes (s : VoteSession) (now : ℤ) (vote : Vote) :
    (castVoteUpdate s now vote).Votes
      = insertA s.Votes vote.AgentID { vote with Timestamp := now } := by
  simp only [castVoteUpdate]
  split
  · rfl
  · rfl

/-- Claim C9: `CastVote` fails — leaving the system unchanged — exactly when
the session is unknown, already completed, or past its deadline; on success
the vote is stored under its agent id, replacing any earlier vote by the same
agent and leaving other agents' votes untouched, so distinct keys are
preserved and the number of recorded votes grows by at most one. -/
theorem castVote_spec (dvs : DemocraticVotingSystem) (now : ℤ)
    (sessionID : String) (vote : Vote) :
    ((castVote dvs now sessionID vote).2 = none ↔
        ∃ s, List.lookup sessionID dvs.sessions = some s
          ∧ s.Completed = false ∧ ¬ s.Proposal.Deadline < now)
      ∧ ((castVote dvs now sessionID vote).2.isSome = true →
          (castVote dvs now sessionID vote).1 = dvs)
      ∧ (∀ s, List.lookup sessionID dvs.sessions = some s →
          (castVote dvs now sessionID vote).2 = none →
          ∃ s', List.lookup sessionID
                  (castVote dvs now sessionID vote).1.sessions = some s'
            ∧ s'.Votes
                = insertA s.Votes vote.AgentID { vote with Timestamp := now }
            ∧ List.lookup vote.AgentID s'.Votes
                = some { vote with Timestamp := now }
            ∧ (∀ a, a ≠ vote.AgentID →
                List.lookup a s'.Votes = List.lookup a s.Votes)
            ∧ ((s.Votes.map Prod.fst).Nodup → (s'.Votes.map Prod.fst).Nodup)
            ∧ s'.Votes.length ≤ s.Votes.length + 1) := by
  cases hlook : List.lookup sessionID dvs.sessions with
  | none =>
    have hstep : castVote dvs now sessionID vote
        = (dvs, some ("vote session not found: " ++ sessionID)) := by
      simp [castVote, hlook]
    refine ⟨?_, ?_, ?_⟩
    · rw [hstep]
      constructor
      · intro hcon
        simp at hcon
      · rintro ⟨s0, hs0, -⟩
        exact absurd hs0 (by simp)
    · intro _
      rw [hstep]
    · intro s0 hs0
      exact absurd hs0 (by simp)
  | some s =>
    by_cases hcomp : s.Completed
    · have hstep : castVote dvs now sessionID vote
          = (dvs, some "vote session already completed") := by
        simp [castVote, hlook, hcomp]
      refine ⟨?_, ?_, ?_⟩
      · rw [hstep]
        constructor
        · intro hcon
          simp at hcon
        · rintro ⟨s0, hs0, hc0, -⟩
          injection hs0 with hs0
          subst hs0
          simp [hcomp] at hc0
      · intro _
        rw [hstep]
      · intro s0 hs0 hnone
        rw [hstep] at hnone
        simp at hnone
    · by_cases hdl : s.Proposal.Deadline < now
      · have hstep : castVote dvs now sessionID vote
            = (dvs, some "vote deadline passed") := by
          simp [castVote, hlook, hcomp, hdl]
        refine ⟨?_, ?_, ?_⟩
        · rw [hstep]
          constructor
          · intro hcon
            simp at hcon
          · rintro ⟨s0, hs0, -, hd0⟩
            injection hs0 with hs0
            subst hs0
            exact absurd hdl hd0
        · intro _
          rw [hstep]
        · intro s0 hs0 hnone
          rw [hstep] at hnone
          simp at hnone
      · have hstep : castVote dvs now sessionID vote
            = (⟨insertA dvs.sessions sessionID (castVoteUpdate s now vote)⟩,
                none) := by
          simp [castVote, hlook, hcomp, hdl]
        refine ⟨?_, ?_, ?_⟩
        · rw [hstep]
          constructor
          · intro _
            exact ⟨s, rfl, by simpa using hcomp, hdl⟩
          · intro _
            rfl
        · intro hcon
          rw [hstep] at hcon
          simp at hcon
        · intro s0 hs0 _
          injection hs0 with hs0
          subst hs0
          rw [hstep]
          refine ⟨castVoteUpdate s now vote, lookup_insertA_self _ _ _,
            castVoteUpdate_votes s now vote, ?_, ?_, ?_, ?_⟩
          · rw [castVoteUpdate_votes]
            exact lookup_insertA_self _ _ _
          · intro a ha
            rw [castVoteUpdate_votes]
            exact lookup_insertA_ne _ _ _ _ ha
          · intro hnd
            rw [castVoteUpdate_votes]
            exact insertA_keys_nodup _ _ _ hnd
          · rw [castVoteUpdate_votes]
            exact insertA_length _ _ _

/-- Witness for C9: casting a fresh vote into the open session succeeds. -/
theorem castVote_spec_witness :
    (castVote oneSessionSystem 5 "s3" ⟨"agent1", true, 1, "", 0⟩).2 = none :=
  (castVote_spec oneSessionSystem 5 "s3" ⟨"agent1", true, 1, "", 0⟩).1.mpr
    ⟨openSession, by simp [oneSessionSystem], rfl, by decide⟩

theorem selectMax_snd_length (y : Memory × ℚ) (l : List (Memory × ℚ)) :
    (selectMax y l).2.length = l.length := by
  induction l generalizing y with
  | nil => simp [selectMax]
  | cons z zs ih =>
    simp only [selectMax]
    split
    · simp [ih]
    · simp [ih]

theorem selectMax_le (l : List (Memory × ℚ)) :
    ∀ x : Memory × ℚ, x.2 ≤ (selectMax x l).1.2
      ∧ ∀ z ∈ (selectMax x l).2, z.2 ≤ (selectMax x l).1.2 := by
  induction l with
  | nil =>
    intro x
    refine ⟨le_refl _, ?_⟩
    simp [selectMax]
  | cons y ys ih =>
    intro x
    simp only [selectMax]
    split
    · next hxy =>
      refine ⟨le_trans (le_of_lt hxy) (ih y).1, ?_⟩
      intro z hz
      rcases List.mem_cons.mp hz with rfl | hz
      · exact le_trans (le_of_lt hxy) (ih y).1
      · exact (ih y).2 z hz
    · next hxy =>
      refine ⟨(ih x).1, ?_⟩
      intro z hz
      rcases List.mem_cons.mp hz with rfl | hz
      · exact le_trans (le_of_not_lt hxy) (ih x).1
      · exact (ih x).2 z hz

theorem selectMax_mem (l : List (Memory × ℚ)) :
    ∀ x : Memory × ℚ, (selectMax x l).1 ∈ x :: l
      ∧ ∀ z ∈ (selectMax x l).2, z ∈ x :: l := by
  induction l with
  | nil =>
    intro x
    refine ⟨by simp [selectMax], ?_⟩
    simp [selectMax]
  | cons y ys ih =>
    intro x
    simp only [selectMax]
    split
    · refine ⟨?_, ?_⟩
      · rcases List.mem_cons.mp (ih y).1 with h | h
        · simp [h]
        · simp [List.mem_cons, h]
      · intro z hz
        rcases List.mem_cons.mp hz with rfl | hz
        · simp
        · rcases List.mem_cons.mp ((ih y).2 z hz) with h | h
          · simp [h]
          · simp [List.mem_cons, h]
    · refine ⟨?_, ?_⟩
      · rcases List.mem_cons.mp (ih x).1 with h | h
        · simp [h]
        · simp [List.mem_cons, h]
      · intro z hz
        rcases List.mem_cons.mp hz with rfl | hz
        · simp
        · rcases List.mem_cons.mp ((ih x).2 z hz) with h | h
          · simp [h]
          · simp [List.mem_cons, h]

theorem sortLoop_mem (l : List (Memory × ℚ)) :
    ∀ z ∈ sortLoop l, z ∈ l := by
  induction l using sortLoop.induct with
  | case1 => simp [sortLoop]
  | case2 x xs ih =>
    intro z hz
    rw [sortLoop] at hz
    rcases List.mem_cons.mp hz with rfl | hz
    · exact (selectMax_mem xs x).1
    · exact (selectMax_mem xs x).2 z (ih z hz)

theorem sortLoop_sorted (l : List (Memory × ℚ)) :
    List.Sorted (· ≥ ·) ((sortLoop l).map Prod.snd) := by
  induction l using sortLoop.induct with
  | case1 => simp [sortLoop]
  | case2 x xs ih =>
    rw [sortLoop]
    simp only [List.map_cons]
    rw [List.sorted_cons]
    refine ⟨?_, ih⟩
    intro b hb
    rcases List.mem_map.mp hb with ⟨z, hz, rfl⟩
    exact (selectMax_le xs x).2 z (sortLoop_mem _ z hz)

/-- Claim C10: `cosineSimilarity` is total and division-guarded — it returns
`0` when the vectors' lengths differ or either self-dot-product is zero, and
divides only by the product of two non-zero self-dot-products — so
`VectorSearch` never divides by zero, returns at most the requested number of
results, and orders them by non-increasing score. -/
theorem vectorSearch_safe (ms : List Memory) (v : List ℚ) (limit : ℤ)
    (a b : List ℚ) :
    ((a.length ≠ b.length ∨ dotProduct a a = 0 ∨ dotProduct b b = 0) →
        cosineSimilarity a b = 0)
      ∧ (cosineSimilarity a b = 0
          ∨ (dotProduct a a ≠ 0 ∧ dotProduct b b ≠ 0
              ∧ cosineSimilarity a b
                  = dotProduct a b / (dotProduct a a * dotProduct b b)))
      ∧ VectorSearch ms v limit
          = ((sortLoop (scoredList ms v)).take limit.toNat).map Prod.fst
      ∧ (VectorSearch ms v limit).length ≤ limit.toNat
      ∧ List.Sorted (· ≥ ·)
          (((sortLoop (scoredList ms v)).take limit.toNat).map Prod.snd) := by
  refine ⟨?_, ?_, rfl, ?_, ?_⟩
  · intro h
    rcases h with h | h | h
    · simp [cosineSimilarity, h]
    · by_cases hl : a.length ≠ b.length
      · simp [cosineSimilarity, hl]
      · simp [cosineSimilarity, hl, h]
    · by_cases hl : a.length ≠ b.length
      · simp [cosineSimilarity, hl]
      · simp [cosineSimilarity, hl, h]
  · by_cases hl : a.length ≠ b.length
    · exact Or.inl (by simp [cosineSimilarity, hl])
    · by_cases hA : dotProduct a a = 0
      · exact Or.inl (by simp [cosineSimilarity, hl, hA])
      · by_cases hB : dotProduct b b = 0
        · exact Or.inl (by simp [cosineSimilarity, hl, hB])
        · refine Or.inr ⟨hA, hB, ?_⟩
          simp [cosineSimilarity, hl, hA, hB]
  · rw [VectorSearch, List.length_map, List.length_take]
    exact min_le_left _ _
  · have hs := sortLoop_sorted (scoredList ms v)
    rw [List.map_take]
    exact List.Pairwise.sublist (List.take_sublist _ _) hs

/-- Witness for C10: the guard clause at two vectors of different lengths. -/
theorem vectorSearch_safe_witness :
    cosineSimilarity [(1 : ℚ)] [1, 2] = 0 :=
  (vectorSearch_safe [] [] 0 [(1 : ℚ)] [1, 2]).1 (Or.inl (by simp))

/-- Claim C2: on cancellation of an in-flight run, all assistant content
already streamed is preserved on the in-progress assistant message, which is
committed finished with finish-reason `canceled`; every outstanding tool call
receives a synthetic tool-result with `is_error = true` and content "request
cancelled", committed in a tool-role message; and the run stream terminates
with Error(canceled), after exactly one more iteration than the completed
tool turns. -/
theorem run_cancellation (fuel : Nat) (pre rest : List Turn)
    (pieces : List Piece) (outstanding : List ToolCall)
    (h1 : ∀ t ∈ pre, isToolTurn t = true) (h2 : pre.length < fuel) :
    runLoop fuel (pre ++ Turn.cancelTurn pieces outstanding :: rest)
        = (emitPre pre ++ cancelMsg pieces outstanding
              :: (if outstanding.isEmpty then [] else [cancelStubMsg outstanding]),
            RunResult.errorResult ErrKind.canceled, pre.length + 1)
      ∧ (cancelMsg pieces outstanding).parts
          = assistantParts pieces ++ outstanding.map toolCallPart
              ++ [Part.finish FinishReason.canceled]
      ∧ (cancelMsg pieces outstanding).finished = true
      ∧ (cancelStubMsg outstanding).parts
          = outstanding.map
              (fun c => Part.toolResult c.id "request cancelled" true)
      ∧ (cancelStubMsg outstanding).role = Role.tool := by
  refine ⟨?_, rfl, rfl, rfl, rfl⟩
  induction pre generalizing fuel with
  | nil =>
    cases fuel with
    | zero => exact absurd h2 (by omega)
    | succ f => simp [runLoop, emitPre]
  | cons t pre' ih =>
    have ht := h1 t (by simp)
    cases t with
    | finishTurn pieces' maxTok => simp [isToolTurn] at ht
    | errTurn pieces' => simp [isToolTurn] at ht
    | cancelTurn pieces' outstanding' => simp [isToolTurn] at ht
    | toolTurn pieces' calls =>
      cases fuel with
      | zero => exact absurd h2 (by omega)
      | succ f =>
        have h2' : pre'.length < f := by
          simp at h2
          omega
        have ih' := ih f (fun t' ht' => h1 t' (by simp [ht'])) h2'
        simp [runLoop, emitPre, ih']

/-- Witness for C2: cancellation with one outstanding shell call, no prior
tool turns. -/
theorem run_cancellation_witness :
    runLoop 1 [Turn.cancelTurn [] [⟨"T1", "shell", "sleep"⟩]]
      = ([cancelMsg [] [⟨"T1", "shell", "sleep"⟩],
          cancelStubMsg [⟨"T1", "shell", "sleep"⟩]],
         RunResult.errorResult ErrKind.canceled, 1) := by
  have h := (run_cancellation 1 [] [] [] [⟨"T1", "shell", "sleep"⟩]
    (by simp) (by simp)).1
  simpa [emitPre] using h

theorem runLoop_iterations_le (script : List Turn) :
    ∀ fuel, (runLoop fuel script).2.2 ≤ fuel := by
  induction script with
  | nil =>
    intro fuel
    simp [runLoop]
  | cons t rest ih =>
    intro fuel
    cases fuel with
    | zero => simp [runLoop]
    | succ f =>
      cases t with
      | finishTurn pieces maxTok => simp [runLoop]
      | errTurn pieces => simp [runLoop]
      | cancelTurn pieces outstanding => simp [runLoop]
      | toolTurn pieces calls =>
        have := ih f
        simp only [runLoop]
        omega

theorem runLoop_limit_exceeded (script : List Turn) :
    ∀ fuel, (∀ t ∈ script, isToolTurn t = true) → fuel < script.length →
      (runLoop fuel script).2.1 = RunResult.errorResult ErrKind.loopLimit
        ∧ ∃ ms, (runLoop fuel script).1 = ms ++ [loopLimitMsg] := by
  induction script with
  | nil =>
    intro fuel _ hlen
    exact absurd hlen (by simp)
  | cons t rest ih =>
    intro fuel hall hlen
    cases fuel with
    | zero =>
      refine ⟨rfl, [], ?_⟩
      simp [runLoop]
    | succ f =>
      have ht := hall t (by simp)
      cases t with
      | finishTurn pieces maxTok => simp [isToolTurn] at ht
      | errTurn pieces => simp [isToolTurn] at ht
      | cancelTurn pieces outstanding => simp [isToolTurn] at ht
      | toolTurn pieces calls =>
        have hlen' : f < rest.length := by
          simp at hlen
          omega
        obtain ⟨hres, ms, hms⟩ := ih f (fun t' ht' => hall t' (by simp [ht'])) hlen'
        refine ⟨by simpa [runLoop] using hres,
          assistantToolMsg pieces calls :: toolResultMsg calls :: ms, ?_⟩
        simp [runLoop, hms]

/-- Claim C4: every run performs at most the configured maximum number of
loop iterations (default 200); a run whose script would exceed the limit
terminates with run-level error `loop_limit` and its last committed message
is the assistant message with an explanatory text part and finish-reason
`error`. -/
theorem run_loop_limit (limit : Nat) (u : String) (script : List Turn) :
    (run limit u script).2.2 ≤ limit
      ∧ maxIterationsDefault = 200
      ∧ ((∀ t ∈ script, isToolTurn t = true) → limit < script.length →
          (run limit u script).2.1 = RunResult.errorResult ErrKind.loopLimit
            ∧ ∃ ms, (run limit u script).1 = ms ++ [loopLimitMsg])
      ∧ loopLimitMsg.parts
          = [Part.text "maximum iterations reached",
             Part.finish FinishReason.error] := by
  refine ⟨runLoop_iterations_le script limit, rfl, ?_, rfl⟩
  intro hall hlen
  obtain ⟨hres, ms, hms⟩ := runLoop_limit_exceeded script limit hall hlen
  refine ⟨hres, userMsg u :: ms, ?_⟩
  simp [run, hms]

/-- Witness for C4: two pathological tool turns under limit 1 end in the
loop-limit error. -/
theorem run_loop_limit_witness :
    (run 1 "go" limitScript).2.1 = RunResult.errorResult ErrKind.loopLimit :=
  ((run_loop_limit 1 "go" limitScript).2.2.1 (by decide) (by decide)).1

theorem finish_not_mem_assistantParts (pieces : List Piece) (r : FinishReason) :
    Part.finish r ∉ assistantParts pieces := by
  intro h
  rcases List.mem_map.mp h with ⟨p, -, hp⟩
  cases p <;> simp [Piece.toPart] at hp

theorem isToolUseAssistant_finishMsg (pieces : List Piece) (maxTok : Bool) :
    isToolUseAssistant (finishMsg pieces maxTok) = false := by
  have h := finish_not_mem_assistantParts pieces FinishReason.toolUse
  cases maxTok <;> simp [isToolUseAssistant, finishMsg, h]

theorem isToolUseAssistant_errMsg (pieces : List Piece) :
    isToolUseAssistant (errMsg pieces) = false := by
  have h := finish_not_mem_assistantParts pieces FinishReason.toolUse
  simp [isToolUseAssistant, errMsg, h]

theorem isToolUseAssistant_cancelMsg (pieces : List Piece)
    (outstanding : List ToolCall) :
    isToolUseAssistant (cancelMsg pieces outstanding) = false := by
  have h := finish_not_mem_assistantParts pieces FinishReason.toolUse
  simp [isToolUseAssistant, cancelMsg, h, toolCallPart]

theorem isToolUseAssistant_toolRole (m : Message) (h : m.role = Role.tool) :
    isToolUseAssistant m = false := by
  simp [isToolUseAssistant, h]

theorem isToolUseAssistant_loopLimitMsg :
    isToolUseAssistant loopLimitMsg = false := by decide

theorem isToolUseAssistant_userMsg (s : String) :
    isToolUseAssistant (userMsg s) = false := by
  simp [isToolUseAssistant, userMsg]

theorem callIds_assistantToolMsg (pieces : List Piece)
    (calls : List (ToolCall × ToolOutcome)) :
    callIds (assistantToolMsg pieces calls) = calls.map (fun c => c.1.id) := by
  have h1 : List.filterMap (fun p =>
      match p with
      | Part.toolCall id _ _ _ => some id
      | _ => none) (assistantParts pieces) = [] := by
    induction pieces with
    | nil => simp [assistantParts]
    | cons p ps ih =>
      cases p with
      | text s => simpa [assistantParts, Piece.toPart] using ih
      | reasoning s => simpa [assistantParts, Piece.toPart] using ih
  simp only [callIds, assistantToolMsg, List.filterMap_append, h1,
    List.nil_append]
  induction calls with
  | nil => simp
  | cons c cs ih =>
    simpa [toolCallPart] using ih

theorem resultIds_toolResultMsg (calls : List (ToolCall × ToolOutcome)) :
    resultIds (toolResultMsg calls) = calls.map (fun c => c.1.id) := by
  simp only [resultIds, toolResultMsg]
  induction calls with
  | nil => simp
  | cons c cs ih => simpa using ih

theorem resultIds_cancelStubMsg (outstanding : List ToolCall) :
    resultIds (cancelStubMsg outstanding) = outstanding.map (fun c => c.id) := by
  simp only [resultIds, cancelStubMsg]
  induction outstanding with
  | nil => simp
  | cons c cs ih => simpa using ih

theorem resultMatches_iff (A m : Message) :
    resultMatches A m = true ↔ (m.role = Role.tool ∧ resultIds m = callIds A) := by
  simp [resultMatches]

theorem isToolUseAssistant_iff (m : Message) :
    isToolUseAssistant m = true
      ↔ (m.role = Role.assistant ∧ Part.finish FinishReason.toolUse ∈ m.parts) := by
  simp [isToolUseAssistant]

theorem runLoop_tool_resultIds (script : List Turn) :
    ∀ fuel m, m ∈ (runLoop fuel script).1 → m.role = Role.tool →
      ∀ x ∈ resultIds m, x ∈ scriptCallIds script := by
  induction script with
  | nil =>
    intro fuel m hm
    simp [runLoop] at hm
  | cons t rest ih =>
    intro fuel m hm hrole x hx
    cases fuel with
    | zero =>
      simp only [runLoop, List.mem_singleton] at hm
      subst hm
      simp [loopLimitMsg] at hrole
    | succ f =>
      cases t with
      | finishTurn pieces maxTok =>
        simp only [runLoop, List.mem_singleton] at hm
        subst hm
        simp [finishMsg] at hrole
      | errTurn pieces =>
        simp only [runLoop, List.mem_singleton] at hm
        subst hm
        simp [errMsg] at hrole
      | cancelTurn pieces outstanding =>
        simp only [runLoop, List.mem_cons] at hm
        rcases hm with rfl | hm
        · simp [cancelMsg] at hrole
        · by_cases ho : outstanding.isEmpty
          · simp [ho] at hm
          · simp only [ho, Bool.false_eq_true, if_false,
              List.mem_singleton] at hm
            subst hm
            rw [resultIds_cancelStubMsg] at hx
            simp only [scriptCallIds, turnCallIds]
            exact List.mem_append_left _ hx
      | toolTurn pieces calls =>
        simp only [runLoop, List.mem_cons] at hm
        rcases hm with rfl | rfl | hm
        · simp [assistantToolMsg] at hrole
        · rw [resultIds_toolResultMsg] at hx
          simp only [scriptCallIds, turnCallIds]
          exact List.mem_append_left _ hx
        · have hrec := ih f m hm hrole x hx
          simp only [scriptCallIds]
          exact List.mem_append_right _ hrec

theorem runLoop_pairing (script : List Turn) :
    ∀ fuel, (scriptCallIds script).Nodup →
      (∀ t ∈ script, goodTurn t = true) →
      ∀ i (hi : i < (runLoop fuel script).1.length),
        isToolUseAssistant ((runLoop fuel script).1.get ⟨i, hi⟩) = true →
        ((runLoop fuel script).1.drop (i + 1)).countP
            (resultMatches ((runLoop fuel script).1.get ⟨i, hi⟩)) = 1 := by
  induction script with
  | nil =>
    intro fuel _ _ i hi
    simp [runLoop] at hi
  | cons t rest ih =>
    intro fuel hN hG i hi hpred
    cases fuel with
    | zero =>
      exfalso
      have hall : ∀ m ∈ (runLoop 0 (t :: rest)).1,
          isToolUseAssistant m = false := by
        intro m hm
        simp only [runLoop, List.mem_singleton] at hm
        subst hm
        exact isToolUseAssistant_loopLimitMsg
      have hfalse := hall _ (List.get_mem _ i hi)
      rw [hpred] at hfalse
      simp at hfalse
    | succ f =>
      cases t with
      | finishTurn pieces maxTok =>
        exfalso
        have hall : ∀ m ∈ (runLoop (f + 1) (Turn.finishTurn pieces maxTok :: rest)).1,
            isToolUseAssistant m = false := by
          intro m hm
          simp only [runLoop, List.mem_singleton] at hm
          subst hm
          exact isToolUseAssistant_finishMsg pieces maxTok
        have hfalse := hall _ (List.get_mem _ i hi)
        rw [hpred] at hfalse
        simp at hfalse
      | errTurn pieces =>
        exfalso
        have hall : ∀ m ∈ (runLoop (f + 1) (Turn.errTurn pieces :: rest)).1,
            isToolUseAssistant m = false := by
          intro m hm
          simp only [runLoop, List.mem_singleton] at hm
          subst hm
          exact isToolUseAssistant_errMsg pieces
        have hfalse := hall _ (List.get_mem _ i hi)
        rw [hpred] at hfalse
        simp at hfalse
      | cancelTurn pieces outstanding =>
        exfalso
        have hall : ∀ m ∈ (runLoop (f + 1)
            (Turn.cancelTurn pieces outstanding :: rest)).1,
            isToolUseAssistant m = false := by
          intro m hm
          simp only [runLoop, List.mem_cons] at hm
          rcases hm with rfl | hm
          · exact isToolUseAssistant_cancelMsg pieces outstanding
          · by_cases ho : outstanding.isEmpty
            · simp [ho] at hm
            · simp only [ho, Bool.false_eq_true, if_false,
                List.mem_singleton] at hm
              subst hm
              exact isToolUseAssistant_toolRole _ rfl
        have hfalse := hall _ (List.get_mem _ i hi)
        rw [hpred] at hfalse
        simp at hfalse
      | toolTurn pieces calls =>
        have hN2 : (turnCallIds (Turn.toolTurn pieces calls)
            ++ scriptCallIds rest).Nodup := hN
        have hN' : (scriptCallIds rest).Nodup := hN2.of_append_right
        have hdisj := List.disjoint_of_nodup_append hN2
        have hG' : ∀ t' ∈ rest, goodTurn t' = true :=
          fun t' ht' => hG t' (by simp [ht'])
        cases i with
        | zero =>
          have hT : resultMatches (assistantToolMsg pieces calls)
              (toolResultMsg calls) = true := by
            rw [resultMatches_iff]
            exact ⟨rfl, by rw [resultIds_toolResultMsg, callIds_assistantToolMsg]⟩
          have hg := hG (Turn.toolTurn pieces calls) (by simp)
          have hcalls : calls ≠ [] := by
            intro hnil
            rw [hnil] at hg
            simp [goodTurn] at hg
          have htail : List.countP
              (resultMatches (assistantToolMsg pieces calls))
              (runLoop f rest).1 = 0 := by
            rw [List.countP_eq_zero]
            intro m hm hcon
            rw [resultMatches_iff] at hcon
            obtain ⟨hrole, hids⟩ := hcon
            obtain ⟨c, hc⟩ := List.exists_mem_of_ne_nil calls hcalls
            have hx1 : c.1.id ∈ callIds (assistantToolMsg pieces calls) := by
              rw [callIds_assistantToolMsg]
              exact List.mem_map.mpr ⟨c, hc, rfl⟩
            have hx2 : c.1.id ∈ resultIds m := by
              rw [hids]
              exact hx1
            have hx3 : c.1.id ∈ scriptCallIds rest :=
              runLoop_tool_resultIds rest f m hm hrole _ hx2
            have hx4 : c.1.id ∈ turnCallIds (Turn.toolTurn pieces calls) := by
              simp only [turnCallIds]
              exact List.mem_map.mpr ⟨c, hc, rfl⟩
            exact hdisj hx4 hx3
          show (List.countP (resultMatches (assistantToolMsg pieces calls))
              (toolResultMsg calls :: (runLoop f rest).1)) = 1
          rw [List.countP_cons, htail, hT]
          simp
        | succ j =>
          cases j with
          | zero =>
            exfalso
            have hpred' : isToolUseAssistant (toolResultMsg calls) = true := hpred
            rw [isToolUseAssistant_toolRole _ rfl] at hpred'
            simp at hpred'
          | succ k =>
            have hk : k < (runLoop f rest).1.length := by
              have hlen := hi
              simp only [runLoop, List.length_cons] at hlen
              omega
            have hpred' : isToolUseAssistant
                ((runLoop f rest).1.get ⟨k, hk⟩) = true := hpred
            have hgoal := ih f hN' hG' k hk hpred'
            exact hgoal

/-- Claim C1: in every run whose provider script declares globally unique
tool-call ids and at least one call per tool-use turn (spec §3 Ownership and
§9), every committed assistant message carrying finish-reason `tool_use` has
exactly one later tool-role message whose tool-result parts correspond
one-to-one, in order, to its tool-call parts, matched by tool-call id — also
for runs ending in cancellation or error, whose stub results carry their own
ids. -/
theorem run_toolUse_pairing (limit : Nat) (u : String) (script : List Turn)
    (hN : (scriptCallIds script).Nodup)
    (hG : ∀ t ∈ script, goodTurn t = true) :
    ∀ i (hi : i < (run limit u script).1.length),
      isToolUseAssistant ((run limit u script).1.get ⟨i, hi⟩) = true →
      ((run limit u script).1.drop (i + 1)).countP
          (resultMatches ((run limit u script).1.get ⟨i, hi⟩)) = 1 := by
  intro i hi hpred
  cases i with
  | zero =>
    exfalso
    have hpred' : isToolUseAssistant (userMsg u) = true := hpred
    rw [isToolUseAssistant_userMsg] at hpred'
    simp at hpred'
  | succ j =>
    have hj : j < (runLoop limit script).1.length := by
      have hlen := hi
      simp only [run, List.length_cons] at hlen
      omega
    have hpred' : isToolUseAssistant
        ((runLoop limit script).1.get ⟨j, hj⟩) = true := hpred
    exact runLoop_pairing script limit hN hG j hj hpred'

theorem pairScript_hlen : 1 < (run 5 "hi" pairScript).1.length := by decide

/-- Witness for C1 at the concrete one-tool-call script: the assistant
tool-use message at index 1 has exactly one matching later tool message. -/
theorem run_toolUse_pairing_witness :
    ((run 5 "hi" pairScript).1.drop 2).countP
        (resultMatches ((run 5 "hi" pairScript).1.get ⟨1, pairScript_hlen⟩)) = 1 :=
  run_toolUse_pairing 5 "hi" pairScript (by decide) (by decide) 1
    pairScript_hlen (by decide)

end OpenCode
